import Mathlib

/-!
# Verification of the kimai-cli timesheet client

Shallow embedding of `src/main.rs` and `src/config.rs` of the `kimai-cli`
repository: an interactive CLI that collects a timesheet entry (project,
activity, duration, date, start time, description) and POSTs it to a Kimai
server.

The embedding covers:

* `parse_duration` (main.rs lines 110-126), including an exact model of the
  IEEE-754 binary64 (`f64`) arithmetic used by the decimal branch
  (`input.parse::<f64>()` is correctly rounded in Rust, the multiplication
  by `3600.0` is correctly rounded by IEEE-754, and `as i64` is a saturating
  truncation toward zero), and of the panics of `chrono::Duration::seconds`,
  `::hours`, `::minutes` and `+` when a value exceeds chrono's bounds
  (`i64::MAX / 1000` seconds).
* `api_request` (main.rs lines 52-88) and `insert_timesheet_entry`
  (lines 106-108): the transport outcome is a value of `TransportResult`
  mirroring ureq's `Result<Response, ureq::Error>`, bodies are `String`s,
  and `serde_json::from_str::<()>` is modelled by `serdeUnitFromStr`
  (serde_json deserializes the unit type from the JSON literal `null`,
  surrounded by optional whitespace, and from nothing else).
* the `main` workflow (lines 128-189) up to the construction of the
  `TimesheetEditForm` it submits, parameterised over an environment that
  supplies the outcomes of the config load, the two GET requests, and every
  interactive prompt, plus a single clock reading used for the two
  consecutive `Local::now()` calls on lines 153-154 (the program is
  single-threaded and the two calls are adjacent; second-level precision).
  The local timezone is modelled as a fixed offset, so a local date/time
  pair is an absolute instant `date * 86400 + time`; chrono's DST-gap panic
  in `and_local_timezone(..).earliest().unwrap()` is outside every claim
  and is not modelled.

Regex note: the source's `\d` (regex crate, Unicode mode) matches any
Unicode decimal digit, while `matchesDecimal`/`clockParts` below match
ASCII digits only.  This does not change any observable result of
`parse_duration`: a string matching the Unicode regex but not the ASCII
one contains a non-ASCII digit, so the subsequent `f64`/`i64` parse
(which accepts ASCII only) fails and `parse_duration` returns `None`,
exactly as the embedding's non-matching branch does.
-/

set_option maxRecDepth 100000
set_option exponentiation.threshold 2000

namespace Kimai

/-! ## Characters, digit strings, and the two anchored grammars -/

/-- All characters are ASCII digits (`\d` on ASCII input). -/
def allDigits (l : List Char) : Bool := l.all Char.isDigit

/-- Numeric value of a digit string (leading zeros allowed), as in
`str::parse` on a digit-only string, before any overflow check. -/
def digitsVal (l : List Char) : ℕ :=
  l.foldl (fun a c => 10 * a + (c.toNat - 48)) 0

/-- `^\d+(\.\d+)?$` — the decimal-hours grammar of main.rs line 111. -/
def matchesDecimal (l : List Char) : Bool :=
  match l.span Char.isDigit with
  | (p, []) => !p.isEmpty
  | (p, c :: rest) => !p.isEmpty && c == '.' && !rest.isEmpty && allDigits rest

/-- `^(\d+):(\d+)$` — the clock grammar of main.rs line 112; returns the two
capture groups.  The split is at the first non-digit character, which must
be `:` with nonempty digit groups on both sides. -/
def clockParts (l : List Char) : Option (List Char × List Char) :=
  match l.span Char.isDigit with
  | (p, c :: rest) =>
    if c == ':' && !p.isEmpty && !rest.isEmpty && allDigits rest then
      some (p, rest)
    else none
  | (_, []) => none

/-- Exact rational value of a string matching the decimal-hours grammar. -/
def decimalValue (l : List Char) : ℚ :=
  match l.span Char.isDigit with
  | (p, []) => (digitsVal p : ℚ)
  | (p, _ :: rest) => (digitsVal p : ℚ) + (digitsVal rest : ℚ) / (10 : ℚ) ^ rest.length

/-! ## Exact model of the `f64` pipeline of the decimal branch

All computations are carried out on unreduced nonnegative fractions of
natural numbers (`Frac`), so that every concrete run reduces in the kernel;
`Frac.val` gives the rational value a fraction denotes.  Rust's `f64`
parsing and IEEE-754 multiplication are correctly rounded (round to
nearest, ties to even), so both are `froundF64` applied to an exact
fraction.  An `f64` value reachable here is either a nonnegative finite
value or `+inf`. -/

/-- An unreduced nonnegative fraction `num / den` (`den` is never `0` in
any fraction this file builds). -/
structure Frac where
  num : ℕ
  den : ℕ
  deriving DecidableEq

/-- The rational value of a fraction. -/
def Frac.val (x : Frac) : ℚ := (x.num : ℚ) / (x.den : ℚ)

/-- Exact fractional value of a string matching the decimal-hours grammar. -/
def decimalValueF (l : List Char) : Frac :=
  match l.span Char.isDigit with
  | (p, []) => ⟨digitsVal p, 1⟩
  | (p, _ :: rest) =>
    ⟨digitsVal p * 10 ^ rest.length + digitsVal rest, 10 ^ rest.length⟩

/-- Fuel-driven base-2 logarithm (the fuel only bounds the recursion, so
that the definition is structural and reduces in the kernel). -/
def log2fuel : ℕ → ℕ → ℕ
  | 0, _ => 0
  | f + 1, n => if n < 2 then 0 else log2fuel f (n / 2) + 1

/-- `⌊log2 n⌋` for `1 ≤ n` (and `0` at `0`): `n` itself is enough fuel. -/
def nlog2 (n : ℕ) : ℕ := log2fuel n n

/-- Decides `2 ^ e ≤ x.val` by cross-multiplication. -/
def fracLePow2 (e : ℤ) (x : Frac) : Bool :=
  match e with
  | .ofNat k => x.den * 2 ^ k ≤ x.num
  | .negSucc k => x.den ≤ x.num * 2 ^ (k + 1)

/-- For `0 < x.val`, the exponent `e` with `2 ^ e ≤ x.val < 2 ^ (e + 1)`.
The bit lengths of numerator and denominator pin `e` down to two
candidates. -/
def fexp (x : Frac) : ℤ :=
  let e0 : ℤ := (nlog2 x.num : ℤ) - (nlog2 x.den : ℤ)
  if fracLePow2 e0 x then e0 else e0 - 1

/-- Round a nonnegative fraction to the nearest integer, ties to even. -/
def froundNE (x : Frac) : ℕ :=
  let n := x.num / x.den
  let r := x.num % x.den
  if 2 * r < x.den then n
  else if x.den < 2 * r then n + 1
  else if n % 2 = 0 then n else n + 1

/-- Scale a fraction by `2 ^ k`, exactly. -/
def fscale (x : Frac) (k : ℤ) : Frac :=
  match k with
  | .ofNat j => ⟨x.num * 2 ^ j, x.den⟩
  | .negSucc j => ⟨x.num, x.den * 2 ^ (j + 1)⟩

/-- The fraction `n * 2 ^ k`. -/
def dyadic (n : ℕ) (k : ℤ) : Frac :=
  match k with
  | .ofNat j => ⟨n * 2 ^ j, 1⟩
  | .negSucc j => ⟨n, 2 ^ (j + 1)⟩

/-- A nonnegative `f64` value: exact finite value, or `+inf`. -/
inductive F64 where
  | finite (val : Frac)
  | inf
  deriving DecidableEq

/-- Numerator of the largest finite `f64`, `(2 ^ 53 - 1) * 2 ^ 971`. -/
def maxF64num : ℕ := (2 ^ 53 - 1) * 2 ^ 971

/-- Round a nonnegative fraction to the nearest `f64` (ties to even):
normal numbers carry 53 significand bits at scale `2 ^ (e - 52)`,
subnormals use the fixed scale `2 ^ (-1074)`, and results beyond the
largest finite `f64` overflow to `+inf`. -/
def froundF64 (x : Frac) : F64 :=
  if x.num = 0 then .finite ⟨0, 1⟩
  else
    let e := fexp x
    let v : Frac :=
      if e < -1022 then dyadic (froundNE (fscale x 1074)) (-1074)
      else dyadic (froundNE (fscale x (52 - e))) (e - 52)
    if maxF64num * v.den < v.num then .inf else .finite v

/-- Correctly rounded `f64` multiplication by the constant `3600.0`
(`hours * 3600.0` on main.rs line 117). -/
def f64mul3600 (x : F64) : F64 :=
  match x with
  | .inf => .inf
  | .finite q => froundF64 ⟨q.num * 3600, q.den⟩

def i64Max : ℕ := 9223372036854775807

/-- Rust's saturating `f64 as i64` cast: truncation toward zero,
`+inf ↦ i64::MAX` (only nonnegative values occur here). -/
def f64toI64 (x : F64) : ℕ :=
  match x with
  | .inf => i64Max
  | .finite q => min (q.num / q.den) i64Max

/-! ## `parse_duration` (main.rs lines 110-126) -/

/-- `chrono::Duration`'s bound on whole seconds: `i64::MAX / 1000`.
`Duration::seconds`, `::hours`, `::minutes` and `Duration + Duration`
panic beyond it. -/
def chronoSecMax : ℕ := 9223372036854775

/-- Outcome of a Rust computation that can panic. -/
inductive PResult (α : Type) where
  | ok (val : α)
  | panic
  deriving DecidableEq

/-- `parse_duration` of main.rs lines 110-126.  The result is the total
(always nonnegative) seconds of the returned `chrono::Duration` (`none` =
parse failure, `.panic` = a chrono constructor or `+` panicked on an
out-of-bounds duration). -/
def parse_duration (s : String) : PResult (Option ℕ) :=
  let l := s.data
  if matchesDecimal l then
    -- let hours: f64 = input.parse().ok()?;  (always succeeds in-grammar,
    -- overflowing to +inf);  Duration::seconds((hours * 3600.0) as i64)
    let secs := f64toI64 (f64mul3600 (froundF64 (decimalValueF l)))
    if chronoSecMax < secs then .panic else .ok (some secs)
  else
    match clockParts l with
    | some (p, r) =>
      -- i64 parse of each group fails on overflow, giving None via `?`
      if i64Max < digitsVal p ∨ i64Max < digitsVal r then .ok none
      else
        -- Duration::hours + Duration::minutes, each panicking (in
        -- evaluation order) when out of chrono's bounds
        if chronoSecMax < digitsVal p * 3600 then .panic
        else if chronoSecMax < digitsVal r * 60 then .panic
        else if chronoSecMax < digitsVal p * 3600 + digitsVal r * 60 then .panic
        else .ok (some (digitsVal p * 3600 + digitsVal r * 60))
    | none => .ok none


/-! ## Domain types (main.rs lines 12-50) -/

/-- `Project` (main.rs line 30): id and display name. -/
structure Project where
  id : ℤ
  name : String
  deriving DecidableEq

/-- `Activity` (main.rs line 12), deserialized from camelCase
(`parentTitle`). -/
structure Activity where
  id : ℤ
  parent_title : Option String
  name : String
  deriving DecidableEq

/-- `TimesheetEditForm` (main.rs lines 42-50): the submitted entry.
`begin` and `end` are absolute instants in seconds (fixed-offset local
timezone model); serde skips `description` exactly when it is `None`. -/
structure TimesheetEditForm where
  begin : ℤ
  project : ℤ
  activity : ℤ
  «end» : ℤ
  description : Option String
  deriving DecidableEq

/-- The keys of the serialized JSON body of a form, in serde's field
order; `#[serde(skip_serializing_if = "Option::is_none")]` (line 48)
omits `description` exactly when it is `None`. -/
def serializedKeys (f : TimesheetEditForm) : List String :=
  ["begin", "project", "activity", "end"] ++
    (match f.description with
     | some _ => ["description"]
     | none => [])

/-! ## API client (main.rs lines 52-108) -/

/-- A completed or failed HTTP exchange, mirroring ureq's
`Result<Response, ureq::Error>`: `success` is `Ok(response)` (ureq
returns `Ok` exactly for the responses it does not classify as errors, in
particular all 2xx), `statusErr` is `Error::Status(code, response)`
(non-2xx), and `transportErr` is any other `ureq::Error` (the exchange
did not complete).  A response is its status and its body text
(`response.into_string()`). -/
inductive TransportResult where
  | success (status : ℕ) (body : String)
  | statusErr (code : ℕ) (body : String)
  | transportErr (msg : String)
  deriving DecidableEq

/-- The three failure shapes `api_request` produces, distinguished by the
message built at main.rs lines 76-83 resp. the error propagated by the
`?` on line 86: a non-2xx status (carrying both the numeric code and the
raw body text), a transport failure, and a serde_json decode failure. -/
inductive ApiError where
  | server (code : ℕ) (body : String)
  | transport (msg : String)
  | decode (msg : String)
  deriving DecidableEq

/-- `api_request` of main.rs lines 52-88, for a request whose transport
outcome is `r` and whose response decoder (`serde_json::from_str::<T>`)
is `dec`.  On `Ok(response)` the body is read and decoded — not
discarded; a decode error is propagated by the trailing `?`. -/
def api_request {α : Type} (dec : String → Except String α)
    (r : TransportResult) : Except ApiError α :=
  match r with
  | .success _ body =>
    match dec body with
    | .ok a => .ok a
    | .error e => .error (.decode e)
  | .statusErr code body => .error (.server code body)
  | .transportErr msg => .error (.transport msg)

/-- serde_json whitespace: space, tab, newline, carriage return. -/
def isJsonWs (c : Char) : Bool := c == ' ' || c == '\t' || c == '\n' || c == '\r'

/-- Strip leading and trailing JSON whitespace from a character list. -/
def jsonStrip (l : List Char) : List Char :=
  ((l.dropWhile isJsonWs).reverse.dropWhile isJsonWs).reverse

/-- `serde_json::from_str::<()>`: the unit type deserializes from the
JSON literal `null` surrounded by optional whitespace, and from nothing
else (serde_json's `deserialize_unit` accepts only `null`). -/
def serdeUnitFromStr (s : String) : Except String Unit :=
  if jsonStrip s.data = ['n', 'u', 'l', 'l'] then .ok ()
  else .error "invalid type, expected unit"

/-- `insert_timesheet_entry` (main.rs lines 106-108): POSTs the
serialized form (which only influences the transport outcome `r`); the
response handling is `api_request` at `T = ()`, so a success body is
parsed by `serde_json::from_str::<()>`. -/
def insert_timesheet_entry (r : TransportResult) : Except ApiError Unit :=
  api_request serdeUnitFromStr r

/-- A 2xx HTTP status. -/
def is2xx (c : ℕ) : Bool := decide (200 ≤ c) && decide (c < 300)

/-! ## The `main` workflow (main.rs lines 128-189) -/

/-- `Config` of config.rs lines 8-14: `default_start_time` is a
`NaiveTime`, modelled as seconds since midnight. -/
structure Config where
  endpoint : String
  token : String
  default_start_time : ℕ
  deriving DecidableEq

/-- One reading of `Local::now()`: the local calendar date (as a day
number) and the local time of day in seconds. -/
structure Now where
  date : ℤ
  time : ℕ
  deriving DecidableEq

/-- `NaiveTime - Duration` (main.rs line 154): chrono's time-of-day
arithmetic wraps around midnight. -/
def timeSubWrap (t : ℕ) (d : ℕ) : ℕ := (((t : ℤ) - (d : ℤ)) % 86400).toNat

/-- Main.rs lines 151-157: the default start time offered by the time
prompt — "now minus the parsed duration" when the chosen date is the
current local date, the configured default otherwise. -/
def defaultStartTime (date : ℤ) (now : Now) (d : ℕ) (cfg : Config) : ℕ :=
  if date = now.date then timeSubWrap now.time d else cfg.default_start_time

/-- The collaborators of one `main` run: the config load outcome, the
outcomes of the two GET requests, each interactive prompt (`.error ()` is
a prompt abort, propagated by `?`), and the single clock instant behind
the two adjacent `Local::now()` calls of lines 153-154. -/
structure Env where
  configResult : Except Unit Config
  projectsResult : Except ApiError (List Project)
  selectProject : List Project → Except Unit Project
  activitiesResult : ℤ → Except ApiError (List Activity)
  selectActivity : List Activity → Except Unit Activity
  durationText : Except Unit String
  dateInput : Except Unit ℤ
  timeInput : ℕ → Except Unit ℕ
  descriptionText : Except Unit String
  now : Now

/-- The failure kinds `main` propagates through `?` to the process exit
(a `parse_duration` failure is not among them — line 145 panics through
`unwrap` instead of returning an error). -/
inductive MainError where
  | config
  | api (e : ApiError)
  | promptAbort
  deriving DecidableEq

/-- `main`, lines 128-157: from the config load up to the computation of
the time prompt's default.  Returns the config, the chosen project and
activity, the parsed duration in seconds, the chosen date, and the
default start time handed to the time prompt; `.panic` is the
`parse_duration(&duration).unwrap()` of line 145 (or a panic inside
`parse_duration` itself). -/
def mainPrefix (env : Env) :
    PResult (Except MainError (Config × Project × Activity × ℕ × ℤ × ℕ)) :=
  match env.configResult with
  | .error _ => .ok (.error .config)
  | .ok cfg =>
  match env.projectsResult with
  | .error e => .ok (.error (.api e))
  | .ok projects =>
  match env.selectProject projects with
  | .error _ => .ok (.error .promptAbort)
  | .ok proj =>
  match env.activitiesResult proj.id with
  | .error e => .ok (.error (.api e))
  | .ok activities =>
  match env.selectActivity activities with
  | .error _ => .ok (.error .promptAbort)
  | .ok activity =>
  match env.durationText with
  | .error _ => .ok (.error .promptAbort)
  | .ok durStr =>
  match parse_duration durStr with
  | .panic => .panic
  | .ok none => .panic
  | .ok (some d) =>
  match env.dateInput with
  | .error _ => .ok (.error .promptAbort)
  | .ok date =>
  .ok (.ok (cfg, proj, activity, d, date, defaultStartTime date env.now d cfg))

/-- `main`, lines 128-187, up to the `TimesheetEditForm` passed to
`insert_timesheet_entry`: continues `mainPrefix` with the time prompt
(offered the computed default), the description prompt, and the
`begin`/`end` computation of lines 170-176. -/
def mainAssemble (env : Env) : PResult (Except MainError TimesheetEditForm) :=
  match mainPrefix env with
  | .panic => .panic
  | .ok (.error e) => .ok (.error e)
  | .ok (.ok (_cfg, proj, activity, d, date, deft)) =>
  match env.timeInput deft with
  | .error _ => .ok (.error .promptAbort)
  | .ok t =>
  match env.descriptionText with
  | .error _ => .ok (.error .promptAbort)
  | .ok descr =>
  let begin : ℤ := date * 86400 + (t : ℤ)
  .ok (.ok { begin := begin, project := proj.id, activity := activity.id,
             «end» := begin + (d : ℤ), description := some descr })

/-- `main` in full: `mainAssemble`, then the submission, whose transport
outcome is `ins`; `main` returns `Ok(())` only when every step
succeeded. -/
def mainRun (env : Env) (ins : TransportResult) :
    PResult (Except MainError Unit) :=
  match mainAssemble env with
  | .panic => .panic
  | .ok (.error e) => .ok (.error e)
  | .ok (.ok _) =>
    match insert_timesheet_entry ins with
    | .ok _ => .ok (.ok ())
    | .error e => .ok (.error (.api e))

/-- Decidable equality for `Except`, so that concrete runs can be
checked by `decide`. -/
instance {ε α : Type} [DecidableEq ε] [DecidableEq α] :
    DecidableEq (Except ε α) := fun a b =>
  match a, b with
  | .ok x, .ok y => decidable_of_iff (x = y) (by simp)
  | .error e, .error f => decidable_of_iff (e = f) (by simp)
  | .ok _, .error _ => isFalse (by simp)
  | .error _, .ok _ => isFalse (by simp)

/-! ## Concrete collaborators used in witnesses and counterexamples -/

/-- A sample config: 09:00 default start time. -/
def cfgA : Config := ⟨"https://kimai.example", "token123", 32400⟩

def projA : Project := ⟨1, "Acme"⟩

def actA : Activity := ⟨10, none, "Dev"⟩

/-- A run in which every collaborator succeeds: one project, one
activity, the duration string `dur`, today (day 20000) selected as the
date at local time 40000 s, the offered default accepted at the time
prompt, and an empty description. -/
def envWith (dur : String) : Env :=
  { configResult := .ok cfgA
    projectsResult := .ok [projA]
    selectProject := fun ps =>
      match ps with
      | [] => .error ()
      | p :: _ => .ok p
    activitiesResult := fun _ => .ok [actA]
    selectActivity := fun l =>
      match l with
      | [] => .error ()
      | a :: _ => .ok a
    durationText := .ok dur
    dateInput := .ok 20000
    timeInput := fun t => .ok t
    descriptionText := .ok ""
    now := ⟨20000, 40000⟩ }

/-- The form assembled by `envWith "1.5"`: 5400 s starting at the offered
default 40000 - 5400 = 34600 s on day 20000. -/
def formW : TimesheetEditForm :=
  { begin := 1728034600, project := 1, activity := 10,
    «end» := 1728040000, description := some "" }

/-- The form assembled by `envWith "1"`: 3600 s starting at
40000 - 3600 = 36400 s on day 20000. -/
def formV : TimesheetEditForm :=
  { begin := 1728036400, project := 1, activity := 10,
    «end» := 1728040000, description := some "" }

/-- A form with no description, for the serializer-omission fact. -/
def formN : TimesheetEditForm :=
  { begin := 0, project := 1, activity := 2, «end» := 0, description := none }

/-- The same run, but the projects fetch fails at the transport layer. -/
def envProjErr : Env :=
  { envWith "1" with projectsResult := .error (.transport "connection refused") }

/-! ## Arithmetic facts about the rounding pipeline -/

theorem log2fuel_spec (f : ℕ) : ∀ n, 1 ≤ n → n ≤ 2 ^ f →
    2 ^ log2fuel f n ≤ n ∧ n < 2 ^ (log2fuel f n + 1) := by
  induction f with
  | zero =>
    intro n h1 h2
    have hn : n = 1 := by simpa using Nat.le_antisymm h2 h1
    subst hn
    simp [log2fuel]
  | succ f ih =>
    intro n h1 h2
    rw [log2fuel]
    by_cases h : n < 2
    · have hn : n = 1 := by omega
      subst hn
      simp
    · simp only [if_neg h]
      have hhalf : 1 ≤ n / 2 := (Nat.one_le_div_iff (by omega)).mpr (by omega)
      have hle : n / 2 ≤ 2 ^ f := by
        have h2f : 2 ^ (f + 1) = 2 ^ f * 2 := by ring
        have hdiv : n / 2 ≤ 2 ^ (f + 1) / 2 := Nat.div_le_div_right h2
        rwa [h2f, Nat.mul_div_cancel _ (by omega)] at hdiv
      obtain ⟨hL, hU⟩ := ih (n / 2) hhalf hle
      have hmod := Nat.div_add_mod n 2
      have hm2 : n % 2 < 2 := Nat.mod_lt _ (by omega)
      constructor
      · calc 2 ^ (log2fuel f (n / 2) + 1) = 2 ^ log2fuel f (n / 2) * 2 := by ring
          _ ≤ n / 2 * 2 := by omega
          _ ≤ n := by omega
      · calc n < (n / 2 + 1) * 2 := by omega
          _ ≤ 2 ^ (log2fuel f (n / 2) + 1) * 2 := by omega
          _ = 2 ^ (log2fuel f (n / 2) + 1 + 1) := by ring

theorem nlog2_spec {n : ℕ} (h : 1 ≤ n) :
    2 ^ nlog2 n ≤ n ∧ n < 2 ^ (nlog2 n + 1) :=
  log2fuel_spec n n h (Nat.le_of_lt (Nat.lt_two_pow n))

theorem froundNE_mul_den_le (x : Frac) : froundNE x * x.den ≤ 2 * x.num := by
  dsimp only [froundNE]
  have hmod := Nat.div_add_mod x.num x.den
  have hc : x.num / x.den * x.den = x.den * (x.num / x.den) := Nat.mul_comm _ _
  have hd2 : (x.num / x.den + 1) * x.den = x.num / x.den * x.den + x.den := by
    ring
  have hnn : 0 ≤ x.den * (x.num / x.den) := Nat.zero_le _
  have hrn : 0 ≤ x.num % x.den := Nat.zero_le _
  split
  · nlinarith [hmod, hc, hnn, hrn]
  · split
    · rename_i hge _
      nlinarith [hmod, hc, hd2, hnn, hrn, Nat.le_of_not_lt hge]
    · split
      · nlinarith [hmod, hc, hnn, hrn]
      · rename_i hge _ _
        nlinarith [hmod, hc, hd2, hnn, hrn, Nat.le_of_not_lt hge]

theorem froundNE_exact (x : Frac) (hd : 0 < x.den) (h : x.den ∣ x.num) :
    froundNE x = x.num / x.den := by
  have hr : x.num % x.den = 0 := Nat.mod_eq_zero_of_dvd h
  dsimp only [froundNE]
  simp [hr, hd]

theorem Frac.val_nonneg (x : Frac) : 0 ≤ x.val := by
  unfold Frac.val
  positivity

theorem fracLePow2_iff (e : ℤ) (x : Frac) (hd : 0 < x.den) :
    fracLePow2 e x = true ↔ (2 : ℚ) ^ e ≤ x.val := by
  have hdQ : (0 : ℚ) < (x.den : ℚ) := by exact_mod_cast hd
  cases e with
  | ofNat k =>
    show decide (x.den * 2 ^ k ≤ x.num) = true ↔ _
    rw [decide_eq_true_eq]
    rw [show ((Int.ofNat k : ℤ)) = (k : ℤ) from rfl, zpow_natCast]
    rw [Frac.val, le_div_iff₀ hdQ]
    constructor
    · intro h
      calc (2 : ℚ) ^ k * (x.den : ℚ) = ((2 ^ k * x.den : ℕ) : ℚ) := by push_cast; ring
        _ ≤ (x.num : ℚ) := by
            exact_mod_cast (by rw [Nat.mul_comm]; exact h : 2 ^ k * x.den ≤ x.num)
    · intro h
      have h2 : ((2 ^ k * x.den : ℕ) : ℚ) ≤ (x.num : ℚ) := by
        calc ((2 ^ k * x.den : ℕ) : ℚ) = (2 : ℚ) ^ k * (x.den : ℚ) := by push_cast; ring
          _ ≤ (x.num : ℚ) := h
      have h3 : 2 ^ k * x.den ≤ x.num := by exact_mod_cast h2
      rwa [Nat.mul_comm] at h3
  | negSucc k =>
    show decide (x.den ≤ x.num * 2 ^ (k + 1)) = true ↔ _
    rw [decide_eq_true_eq]
    rw [zpow_negSucc, inv_eq_one_div, Frac.val,
      div_le_div_iff₀ (by positivity) hdQ, one_mul]
    constructor
    · intro h
      calc (x.den : ℚ) ≤ ((x.num * 2 ^ (k + 1) : ℕ) : ℚ) := by exact_mod_cast h
        _ = (x.num : ℚ) * (2 : ℚ) ^ (k + 1) := by push_cast; ring
    · intro h
      have h2 : ((x.den : ℕ) : ℚ) ≤ ((x.num * 2 ^ (k + 1) : ℕ) : ℚ) := by
        calc ((x.den : ℕ) : ℚ) = (x.den : ℚ) := rfl
          _ ≤ (x.num : ℚ) * (2 : ℚ) ^ (k + 1) := h
          _ = ((x.num * 2 ^ (k + 1) : ℕ) : ℚ) := by push_cast; ring
      exact_mod_cast h2

theorem fexp_spec (x : Frac) (hn : 0 < x.num) (hd : 0 < x.den) :
    (2 : ℚ) ^ fexp x ≤ x.val ∧ x.val < (2 : ℚ) ^ (fexp x + 1) := by
  have hdQ : (0 : ℚ) < (x.den : ℚ) := by exact_mod_cast hd
  obtain ⟨hnL, hnU⟩ := nlog2_spec hn
  obtain ⟨hdL, hdU⟩ := nlog2_spec hd
  set la := nlog2 x.num with hla
  set lb := nlog2 x.den with hlb
  set e0 : ℤ := (la : ℤ) - (lb : ℤ) with he0
  have hfe : fexp x = if fracLePow2 e0 x then e0 else e0 - 1 := rfl
  have hupper : x.val < (2 : ℚ) ^ (e0 + 1) := by
    have hcross : x.num * 2 ^ lb < 2 ^ (la + 1) * x.den := by
      calc x.num * 2 ^ lb < 2 ^ (la + 1) * 2 ^ lb := by
            have := Nat.pos_pow_of_pos lb (show 0 < 2 by omega)
            exact Nat.mul_lt_mul_of_lt_of_le hnU (Nat.le_refl _) this
        _ ≤ 2 ^ (la + 1) * x.den :=
            Nat.mul_le_mul_left _ hdL
    have hcrossQ : (x.num : ℚ) * (2 : ℚ) ^ lb < (2 : ℚ) ^ (la + 1) * (x.den : ℚ) := by
      exact_mod_cast hcross
    have hzp : (2 : ℚ) ^ (e0 + 1) = (2 : ℚ) ^ (la + 1) / (2 : ℚ) ^ lb := by
      rw [show e0 + 1 = ((la + 1 : ℕ) : ℤ) - ((lb : ℕ) : ℤ) by push_cast [he0]; ring]
      rw [zpow_sub₀ (by norm_num : (2 : ℚ) ≠ 0), zpow_natCast, zpow_natCast]
    rw [hzp, Frac.val, div_lt_div_iff₀ hdQ (by positivity)]
    linarith [hcrossQ]
  have hlower : (2 : ℚ) ^ (e0 - 1) ≤ x.val := by
    have hcross : 2 ^ la * x.den ≤ x.num * 2 ^ (lb + 1) := by
      calc 2 ^ la * x.den ≤ x.num * x.den := Nat.mul_le_mul_right _ hnL
        _ ≤ x.num * 2 ^ (lb + 1) := Nat.mul_le_mul_left _ (Nat.le_of_lt hdU)
    have hcrossQ : (2 : ℚ) ^ la * (x.den : ℚ) ≤ (x.num : ℚ) * (2 : ℚ) ^ (lb + 1) := by
      exact_mod_cast hcross
    have hzp : (2 : ℚ) ^ (e0 - 1) = (2 : ℚ) ^ la / (2 : ℚ) ^ (lb + 1) := by
      rw [show e0 - 1 = ((la : ℕ) : ℤ) - ((lb + 1 : ℕ) : ℤ) by push_cast [he0]; ring]
      rw [zpow_sub₀ (by norm_num : (2 : ℚ) ≠ 0), zpow_natCast, zpow_natCast]
    rw [hzp, Frac.val, div_le_div_iff₀ (by positivity) hdQ]
    linarith [hcrossQ]
  by_cases hb : fracLePow2 e0 x = true
  · rw [hfe, if_pos hb]
    exact ⟨(fracLePow2_iff e0 x hd).mp hb, hupper⟩
  · rw [hfe, if_neg hb]
    constructor
    · simpa using hlower
    · have : ¬ ((2 : ℚ) ^ e0 ≤ x.val) := fun hc => hb ((fracLePow2_iff e0 x hd).mpr hc)
      have h2 : x.val < (2 : ℚ) ^ e0 := lt_of_not_le this
      simpa using h2

theorem dyadic_den_pos (n : ℕ) (k : ℤ) : 0 < (dyadic n k).den := by
  cases k with
  | ofNat j => simp [dyadic]
  | negSucc j => exact Nat.pos_pow_of_pos _ (by omega)

theorem dyadic_val (n : ℕ) (k : ℤ) : (dyadic n k).val = (n : ℚ) * (2 : ℚ) ^ k := by
  cases k with
  | ofNat j =>
    show ((n * 2 ^ j : ℕ) : ℚ) / ((1 : ℕ) : ℚ) = _
    rw [show ((Int.ofNat j : ℤ)) = ((j : ℕ) : ℤ) from rfl, zpow_natCast]
    push_cast
    ring
  | negSucc j =>
    show ((n : ℕ) : ℚ) / ((2 ^ (j + 1) : ℕ) : ℚ) = _
    rw [zpow_negSucc]
    push_cast
    rw [div_eq_mul_inv]

theorem fscale_den_pos (x : Frac) (hd : 0 < x.den) (k : ℤ) :
    0 < (fscale x k).den := by
  cases k with
  | ofNat j => simpa [fscale] using hd
  | negSucc j =>
    show 0 < x.den * 2 ^ (j + 1)
    exact Nat.mul_pos hd (Nat.pos_pow_of_pos _ (by omega))

theorem fscale_val (x : Frac) (hd : 0 < x.den) (k : ℤ) :
    (fscale x k).val = x.val * (2 : ℚ) ^ k := by
  have hdQ : ((x.den : ℚ)) ≠ 0 := by
    exact_mod_cast Nat.pos_iff_ne_zero.mp hd
  cases k with
  | ofNat j =>
    show ((x.num * 2 ^ j : ℕ) : ℚ) / (x.den : ℚ) = _
    rw [show ((Int.ofNat j : ℤ)) = ((j : ℕ) : ℤ) from rfl, zpow_natCast, Frac.val]
    push_cast
    ring
  | negSucc j =>
    show ((x.num : ℕ) : ℚ) / ((x.den * 2 ^ (j + 1) : ℕ) : ℚ) = _
    rw [zpow_negSucc, Frac.val]
    push_cast
    rw [div_eq_mul_inv, div_eq_mul_inv, mul_inv, mul_assoc]

theorem dyadic_num_le (n : ℕ) (k : ℤ) (c : ℕ)
    (h : (n : ℚ) * (2 : ℚ) ^ k ≤ (c : ℚ)) :
    (dyadic n k).num ≤ c * (dyadic n k).den := by
  cases k with
  | ofNat j =>
    show n * 2 ^ j ≤ c * 1
    rw [Nat.mul_one]
    have hQ : ((n * 2 ^ j : ℕ) : ℚ) ≤ (c : ℚ) := by
      calc ((n * 2 ^ j : ℕ) : ℚ) = (n : ℚ) * (2 : ℚ) ^ (Int.ofNat j) := by
            rw [show ((Int.ofNat j : ℤ)) = ((j : ℕ) : ℤ) from rfl, zpow_natCast]
            push_cast
            ring
        _ ≤ (c : ℚ) := h
    exact_mod_cast hQ
  | negSucc j =>
    show n ≤ c * 2 ^ (j + 1)
    rw [zpow_negSucc] at h
    have hp : (0 : ℚ) < (2 : ℚ) ^ (j + 1) := by positivity
    have hQ : (n : ℚ) ≤ (c : ℚ) * (2 : ℚ) ^ (j + 1) := by
      calc (n : ℚ) = (n : ℚ) * ((2 : ℚ) ^ (j + 1))⁻¹ * (2 : ℚ) ^ (j + 1) := by
            field_simp
        _ ≤ (c : ℚ) * (2 : ℚ) ^ (j + 1) :=
            mul_le_mul_of_nonneg_right h (le_of_lt hp)
    have hQ2 : (n : ℚ) ≤ ((c * 2 ^ (j + 1) : ℕ) : ℚ) := by push_cast; linarith
    exact_mod_cast hQ2

theorem froundF64_exact (x : Frac) (hd : 0 < x.den) (m : ℕ) (k : ℕ)
    (hm : 0 < m) (hm53 : m < 2 ^ 53)
    (hv : x.num = m * 2 ^ k * x.den)
    (hmax : m * 2 ^ k ≤ maxF64num) :
    ∃ v : Frac, froundF64 x = .finite v ∧ 0 < v.den ∧
      v.val = (m : ℚ) * (2 : ℚ) ^ (k : ℤ) := by
  have hden0 : ((x.den : ℚ)) ≠ 0 := by
    exact_mod_cast Nat.pos_iff_ne_zero.mp hd
  have hnum_pos : 0 < x.num := by
    rw [hv]
    exact Nat.mul_pos (Nat.mul_pos hm (Nat.pos_pow_of_pos _ (by omega))) hd
  have hnum0 : ¬ (x.num = 0) := Nat.pos_iff_ne_zero.mp hnum_pos
  have hvQ : x.val = (m : ℚ) * (2 : ℚ) ^ (k : ℤ) := by
    rw [Frac.val, hv, zpow_natCast]
    push_cast
    rw [mul_div_assoc, div_self hden0, mul_one]
  obtain ⟨heL, heU⟩ := fexp_spec x hnum_pos hd
  set e := fexp x with he
  have hkQ : (2 : ℚ) ^ ((k : ℕ) : ℤ) ≤ x.val := by
    rw [hvQ]
    have hm1 : (1 : ℚ) ≤ (m : ℚ) := by exact_mod_cast hm
    nlinarith [zpow_pos (show (0:ℚ) < 2 by norm_num) ((k : ℕ) : ℤ)]
  have hke : (k : ℤ) ≤ e := by
    have h2 : (2 : ℚ) ^ ((k : ℕ) : ℤ) < (2 : ℚ) ^ (e + 1) := lt_of_le_of_lt hkQ heU
    have := (zpow_lt_zpow_iff_right₀ (show (1:ℚ) < 2 by norm_num)).mp h2
    omega
  have hek : e ≤ (k : ℤ) + 52 := by
    have h1 : x.val < (2 : ℚ) ^ ((k : ℤ) + 53) := by
      rw [hvQ, zpow_add₀ (show (2:ℚ) ≠ 0 by norm_num)]
      have hm53Q : (m : ℚ) < (2 : ℚ) ^ (53 : ℕ) := by exact_mod_cast hm53
      have hp : (0 : ℚ) < (2 : ℚ) ^ ((k : ℕ) : ℤ) :=
        zpow_pos (show (0:ℚ) < 2 by norm_num) _
      calc (m : ℚ) * (2 : ℚ) ^ ((k : ℕ) : ℤ)
          < (2 : ℚ) ^ (53 : ℕ) * (2 : ℚ) ^ ((k : ℕ) : ℤ) := by nlinarith
        _ = (2 : ℚ) ^ ((k : ℤ)) * (2 : ℚ) ^ ((53 : ℕ) : ℤ) := by
            rw [zpow_natCast, zpow_natCast]
            ring
    have h2 : (2 : ℚ) ^ e < (2 : ℚ) ^ ((k : ℤ) + 53) := lt_of_le_of_lt heL h1
    have := (zpow_lt_zpow_iff_right₀ (show (1:ℚ) < 2 by norm_num)).mp h2
    omega
  have hnot_sub : ¬ (e < -1022) := by omega
  -- the scaled significand is exactly m * 2 ^ j with j = k + 52 - e
  obtain ⟨j, hj⟩ : ∃ j : ℕ, (j : ℤ) = (k : ℤ) + 52 - e :=
    ⟨((k : ℤ) + 52 - e).toNat, Int.toNat_of_nonneg (by omega)⟩
  have hM : froundNE (fscale x (52 - e)) = m * 2 ^ j := by
    rcases hs : (52 - e : ℤ) with j2 | j2
    · -- 52 - e = j2 ≥ 0, scale multiplies the numerator
      have hs2 : 52 - e = (j2 : ℤ) := by exact_mod_cast hs
      have hj2 : (j : ℤ) = (k : ℤ) + (j2 : ℤ) := by
        rw [hj]
        omega
      have hjn : j = k + j2 := by exact_mod_cast hj2
      have hnum_eq : x.num * 2 ^ j2 = x.den * (m * 2 ^ j) := by
        rw [hv, hjn, pow_add]
        ring
      show froundNE ⟨x.num * 2 ^ j2, x.den⟩ = m * 2 ^ j
      rw [froundNE_exact ⟨x.num * 2 ^ j2, x.den⟩ hd ⟨m * 2 ^ j, hnum_eq⟩]
      show x.num * 2 ^ j2 / x.den = m * 2 ^ j
      rw [hnum_eq, Nat.mul_div_cancel_left _ hd]
    · -- 52 - e = -(j2+1) < 0, scale multiplies the denominator
      have hs2 : 52 - e = -((j2 : ℤ) + 1) := by
        rw [hs, Int.negSucc_eq]
      have hj2 : (k : ℤ) = (j : ℤ) + ((j2 : ℤ) + 1) := by
        rw [hj]
        omega
      have hjn : k = j + (j2 + 1) := by exact_mod_cast hj2
      have hnum_eq : x.num = x.den * 2 ^ (j2 + 1) * (m * 2 ^ j) := by
        rw [hv, hjn, pow_add]
        ring
      have hd2 : 0 < x.den * 2 ^ (j2 + 1) :=
        Nat.mul_pos hd (Nat.pos_pow_of_pos _ (by omega))
      show froundNE ⟨x.num, x.den * 2 ^ (j2 + 1)⟩ = m * 2 ^ j
      rw [froundNE_exact ⟨x.num, x.den * 2 ^ (j2 + 1)⟩ hd2 ⟨m * 2 ^ j, hnum_eq⟩]
      show x.num / (x.den * 2 ^ (j2 + 1)) = m * 2 ^ j
      rw [hnum_eq, Nat.mul_div_cancel_left _ hd2]
  have hvval : (dyadic (m * 2 ^ j) (e - 52)).val = (m : ℚ) * (2 : ℚ) ^ (k : ℤ) := by
    rw [dyadic_val]
    push_cast
    have hexp : (j : ℤ) + (e - 52) = (k : ℤ) := by omega
    rw [mul_assoc, ← zpow_natCast (2 : ℚ) j,
      ← zpow_add₀ (show (2:ℚ) ≠ 0 by norm_num), hexp]
  have hvle : (dyadic (m * 2 ^ j) (e - 52)).num ≤
      maxF64num * (dyadic (m * 2 ^ j) (e - 52)).den := by
    apply dyadic_num_le
    have h1 : ((m * 2 ^ j : ℕ) : ℚ) * (2 : ℚ) ^ (e - 52) =
        (dyadic (m * 2 ^ j) (e - 52)).val := (dyadic_val _ _).symm
    rw [h1, hvval]
    calc (m : ℚ) * (2 : ℚ) ^ (k : ℤ) = ((m * 2 ^ k : ℕ) : ℚ) := by
          rw [zpow_natCast]
          push_cast
          ring
      _ ≤ ((maxF64num : ℕ) : ℚ) := by exact_mod_cast hmax
  refine ⟨dyadic (m * 2 ^ j) (e - 52), ?_, dyadic_den_pos _ _, hvval⟩
  rw [froundF64]
  simp only [if_neg hnum0, ← he, if_neg hnot_sub, hM]
  rw [if_neg (Nat.not_lt.mpr hvle)]

theorem round_scale_le (x : Frac) (hd : 0 < x.den) (k : ℤ) :
    (dyadic (froundNE (fscale x k)) (-k)).val ≤ 2 * x.val := by
  have hyd : 0 < (fscale x k).den := fscale_den_pos x hd k
  have hydQ : (0 : ℚ) < ((fscale x k).den : ℚ) := by exact_mod_cast hyd
  have h0 : froundNE (fscale x k) * (fscale x k).den ≤ 2 * (fscale x k).num :=
    froundNE_mul_den_le _
  have h1 : (froundNE (fscale x k) : ℚ) ≤ 2 * (fscale x k).val := by
    rw [Frac.val, ← mul_div_assoc, le_div_iff₀ hydQ]
    exact_mod_cast h0
  have hp : (0 : ℚ) ≤ (2 : ℚ) ^ (-k) := le_of_lt (zpow_pos (by norm_num) _)
  calc (dyadic (froundNE (fscale x k)) (-k)).val
      = (froundNE (fscale x k) : ℚ) * (2 : ℚ) ^ (-k) := dyadic_val _ _
    _ ≤ 2 * (fscale x k).val * (2 : ℚ) ^ (-k) := mul_le_mul_of_nonneg_right h1 hp
    _ = 2 * (x.val * (2 : ℚ) ^ k) * (2 : ℚ) ^ (-k) := by rw [fscale_val x hd k]
    _ = 2 * x.val := by
        rw [mul_assoc, mul_assoc, ← zpow_add₀ (show (2:ℚ) ≠ 0 by norm_num),
          show k + -k = (0 : ℤ) by omega, zpow_zero, mul_one]

theorem froundF64_le (x : Frac) (hd : 0 < x.den)
    (hb : 2 * x.val ≤ (maxF64num : ℚ)) :
    ∃ v : Frac, froundF64 x = .finite v ∧ 0 < v.den ∧ v.val ≤ 2 * x.val := by
  by_cases hnum : x.num = 0
  · refine ⟨⟨0, 1⟩, ?_, Nat.one_pos, ?_⟩
    · rw [froundF64, if_pos hnum]
    · have hx : x.val = 0 := by simp [Frac.val, hnum]
      have hv : Frac.val ⟨0, 1⟩ = 0 := by simp [Frac.val]
      rw [hx, hv]
      norm_num
  · by_cases hsub : fexp x < -1022
    · have hle := round_scale_le x hd 1074
      have hnumle : (dyadic (froundNE (fscale x 1074)) (-1074)).num ≤
          maxF64num * (dyadic (froundNE (fscale x 1074)) (-1074)).den := by
        apply dyadic_num_le
        have hv := (dyadic_val (froundNE (fscale x 1074)) (-1074)).symm
        rw [hv]
        exact le_trans hle hb
      refine ⟨dyadic (froundNE (fscale x 1074)) (-1074), ?_,
        dyadic_den_pos _ _, hle⟩
      rw [froundF64]
      simp only [if_neg hnum, if_pos hsub]
      rw [if_neg (Nat.not_lt.mpr hnumle)]
    · have hle0 := round_scale_le x hd (52 - fexp x)
      rw [neg_sub] at hle0
      have hnumle : (dyadic (froundNE (fscale x (52 - fexp x))) (fexp x - 52)).num ≤
          maxF64num * (dyadic (froundNE (fscale x (52 - fexp x))) (fexp x - 52)).den := by
        apply dyadic_num_le
        have hv := (dyadic_val (froundNE (fscale x (52 - fexp x))) (fexp x - 52)).symm
        rw [hv]
        exact le_trans hle0 hb
      refine ⟨dyadic (froundNE (fscale x (52 - fexp x))) (fexp x - 52), ?_,
        dyadic_den_pos _ _, hle0⟩
      rw [froundF64]
      simp only [if_neg hnum, if_neg hsub]
      rw [if_neg (Nat.not_lt.mpr hnumle)]

theorem mul3600_val (q : Frac) :
    Frac.val ⟨q.num * 3600, q.den⟩ = 3600 * q.val := by
  show ((q.num * 3600 : ℕ) : ℚ) / (q.den : ℚ) = 3600 * ((q.num : ℚ) / (q.den : ℚ))
  push_cast
  ring

theorem fdiv_le (q : Frac) (c : ℕ) (h : q.val ≤ (c : ℚ)) :
    q.num / q.den ≤ c := by
  have h1 : ((q.num / q.den : ℕ) : ℚ) ≤ q.val := by
    rw [Frac.val]
    exact Nat.cast_div_le
  have h2 : ((q.num / q.den : ℕ) : ℚ) ≤ (c : ℚ) := le_trans h1 h
  exact_mod_cast h2

/-! ## Facts about the two grammars -/

theorem span_of_allDigits (l : List Char) (h : allDigits l = true) :
    l.span Char.isDigit = (l, []) := by
  rw [List.span_eq_take_drop]
  have hall : ∀ c ∈ l, Char.isDigit c = true := by
    intro c hc
    exact List.all_eq_true.mp h c hc
  rw [List.takeWhile_eq_self_iff.mpr hall, List.dropWhile_eq_nil_iff.mpr hall]

theorem matchesDecimal_of_allDigits (l : List Char) (hne : l ≠ [])
    (h : allDigits l = true) : matchesDecimal l = true := by
  rw [matchesDecimal, span_of_allDigits l h]
  simpa using hne

theorem decimalValueF_of_allDigits (l : List Char) (h : allDigits l = true) :
    decimalValueF l = ⟨digitsVal l, 1⟩ := by
  rw [decimalValueF, span_of_allDigits l h]

theorem decimalValueF_den_pos (l : List Char) : 0 < (decimalValueF l).den := by
  rw [decimalValueF]
  rcases hsp : l.span Char.isDigit with ⟨p, rest⟩
  cases rest with
  | nil => exact Nat.one_pos
  | cons c cs => exact Nat.pos_pow_of_pos _ (by omega)

theorem matchesDecimal_eq_false_of_clockParts (l : List Char) (p r : List Char)
    (h : clockParts l = some (p, r)) : matchesDecimal l = false := by
  rw [clockParts] at h
  rw [matchesDecimal]
  rcases hsp : l.span Char.isDigit with ⟨q, rest⟩
  rw [hsp] at h
  cases rest with
  | nil => exact absurd h (by simp)
  | cons c cs =>
    dsimp only at h ⊢
    split at h
    · rename_i hcond
      have hc : c = ':' := by
        simp only [Bool.and_eq_true, beq_iff_eq] at hcond
        exact hcond.1.1.1
      subst hc
      simp
    · exact absurd h (by simp)

/-! ## Evaluation of `parse_duration` on each grammar -/

theorem val_eq_nat (q : Frac) (hd : 0 < q.den) (c : ℕ) (h : q.val = (c : ℚ)) :
    q.num = c * q.den := by
  have hdQ : ((q.den : ℚ)) ≠ 0 := by exact_mod_cast Nat.pos_iff_ne_zero.mp hd
  rw [Frac.val, div_eq_iff hdQ] at h
  exact_mod_cast h

theorem parse_none_of_no_match (s : String)
    (hdec : matchesDecimal s.data = false) (hclk : clockParts s.data = none) :
    parse_duration s = .ok none := by
  rw [parse_duration]
  simp [hdec, hclk]

theorem parse_clock_eq (s : String) (p r : List Char)
    (hcp : clockParts s.data = some (p, r))
    (hp : digitsVal p ≤ i64Max) (hr : digitsVal r ≤ i64Max)
    (htot : digitsVal p * 3600 + digitsVal r * 60 ≤ chronoSecMax) :
    parse_duration s = .ok (some (digitsVal p * 3600 + digitsVal r * 60)) := by
  have hdec := matchesDecimal_eq_false_of_clockParts s.data p r hcp
  rw [parse_duration]
  simp only [hdec, Bool.false_eq_true, if_false, hcp]
  rw [if_neg (by omega), if_neg (by omega), if_neg (by omega), if_neg (by omega)]

theorem parse_int_exact (s : String) (hne : s.data ≠ [])
    (hdig : allDigits s.data = true)
    (hb : digitsVal s.data ≤ 2562047788015) :
    parse_duration s = .ok (some (3600 * digitsVal s.data)) := by
  have hmd := matchesDecimal_of_allDigits s.data hne hdig
  have hdv := decimalValueF_of_allDigits s.data hdig
  rw [parse_duration]
  simp only [hmd, if_true, hdv]
  set n := digitsVal s.data with hn
  rcases Nat.eq_zero_or_pos n with hz | hpos
  · rw [hz]
    decide
  · have h53 : n < 2 ^ 53 := by
      have hp53 : (2 : ℕ) ^ 53 = 9007199254740992 := by norm_num
      omega
    have hx1 : (Frac.mk n 1).num = n * 2 ^ 0 * (Frac.mk n 1).den := by
      show n = n * 2 ^ 0 * 1
      ring
    have hmax1 : n * 2 ^ 0 ≤ maxF64num := by
      have h1 : n * 2 ^ 0 = n := by ring
      rw [h1]
      calc n ≤ 2562047788015 := hb
        _ ≤ maxF64num := by norm_num [maxF64num]
    obtain ⟨v, hfv, hvden, hvval⟩ :=
      froundF64_exact ⟨n, 1⟩ Nat.one_pos n 0 hpos h53 hx1 hmax1
    have hvval2 : v.val = (n : ℚ) := by
      rw [hvval]
      norm_num
    have hvnum : v.num = n * v.den := val_eq_nat v hvden n hvval2
    rw [hfv]
    simp only [f64mul3600]
    have hy1 : (Frac.mk (v.num * 3600) v.den).num =
        (225 * n) * 2 ^ 4 * (Frac.mk (v.num * 3600) v.den).den := by
      show v.num * 3600 = (225 * n) * 2 ^ 4 * v.den
      rw [hvnum]
      ring
    have h53y : 225 * n < 2 ^ 53 := by
      have hp53 : (2 : ℕ) ^ 53 = 9007199254740992 := by norm_num
      omega
    have hmaxy : (225 * n) * 2 ^ 4 ≤ maxF64num := by
      calc (225 * n) * 2 ^ 4 = 3600 * n := by ring
        _ ≤ 3600 * 2562047788015 := by omega
        _ ≤ maxF64num := by norm_num [maxF64num]
    obtain ⟨w, hfw, hwden, hwval⟩ :=
      froundF64_exact ⟨v.num * 3600, v.den⟩ hvden (225 * n) 4
        (by omega) h53y hy1 hmaxy
    have hwval2 : w.val = ((3600 * n : ℕ) : ℚ) := by
      rw [hwval]
      push_cast
      norm_num
      ring
    have hwnum : w.num = (3600 * n) * w.den := val_eq_nat w hwden _ hwval2
    rw [hfw]
    simp only [f64toI64]
    rw [hwnum, Nat.mul_div_cancel _ hwden]
    have hi64 : i64Max = 9223372036854775807 := rfl
    have hcs : chronoSecMax = 9223372036854775 := rfl
    rw [Nat.min_eq_left (by omega)]
    rw [if_neg (by omega)]

theorem parse_decimal_no_panic (s : String)
    (hm : matchesDecimal s.data = true)
    (hb : (decimalValueF s.data).num ≤ 2 ^ 30 * (decimalValueF s.data).den) :
    ∃ d, parse_duration s = .ok (some d) := by
  set x := decimalValueF s.data with hx
  have hdp : 0 < x.den := decimalValueF_den_pos s.data
  have hdQ : (0 : ℚ) < (x.den : ℚ) := by exact_mod_cast hdp
  have hval : x.val ≤ (2 : ℚ) ^ (30 : ℕ) := by
    rw [Frac.val, div_le_iff₀ hdQ]
    calc (x.num : ℚ) ≤ ((2 ^ 30 * x.den : ℕ) : ℚ) := by exact_mod_cast hb
      _ = (2 : ℚ) ^ (30 : ℕ) * (x.den : ℚ) := by push_cast; ring
  have hxnn := Frac.val_nonneg x
  have h2v : 2 * x.val ≤ (maxF64num : ℚ) := by
    calc 2 * x.val ≤ 2 * (2 : ℚ) ^ (30 : ℕ) := by linarith
      _ ≤ (maxF64num : ℚ) := by norm_num [maxF64num]
  obtain ⟨v, hfv, hvden, hvle⟩ := froundF64_le x hdp h2v
  have hy := mul3600_val v
  have h2y : 2 * Frac.val ⟨v.num * 3600, v.den⟩ ≤ (maxF64num : ℚ) := by
    rw [hy]
    calc 2 * (3600 * v.val) ≤ 2 * (3600 * (2 * (2 : ℚ) ^ (30 : ℕ))) := by nlinarith
      _ ≤ (maxF64num : ℚ) := by norm_num [maxF64num]
  obtain ⟨w, hfw, hwden, hwle⟩ := froundF64_le ⟨v.num * 3600, v.den⟩ hvden h2y
  have hwb : w.val ≤ ((15461882265600 : ℕ) : ℚ) := by
    rw [hy] at hwle
    have hC : (2 : ℚ) ^ (30 : ℕ) = 1073741824 := by norm_num
    push_cast
    nlinarith
  have hdivle : w.num / w.den ≤ 15461882265600 := fdiv_le w _ hwb
  refine ⟨min (w.num / w.den) i64Max, ?_⟩
  rw [parse_duration]
  simp only [hm, if_true, ← hx, hfv, f64mul3600, hfw, f64toI64]
  have hcs : chronoSecMax = 9223372036854775 := rfl
  rw [if_neg (by omega)]

/-! ## Inversion of a successful workflow run -/

theorem mainPrefix_ok_inv (env : Env) (cfg : Config) (proj : Project)
    (act : Activity) (d : ℕ) (dt : ℤ) (deft : ℕ)
    (h : mainPrefix env = .ok (.ok (cfg, proj, act, d, dt, deft))) :
    ∃ ps acts s,
      env.configResult = .ok cfg ∧
      env.projectsResult = .ok ps ∧
      env.selectProject ps = .ok proj ∧
      env.activitiesResult proj.id = .ok acts ∧
      env.selectActivity acts = .ok act ∧
      env.durationText = .ok s ∧
      parse_duration s = .ok (some d) ∧
      env.dateInput = .ok dt ∧
      deft = defaultStartTime dt env.now d cfg := by
  rw [mainPrefix] at h
  rcases h1 : env.configResult with u | cfg0 <;> simp only [h1] at h
  · exact absurd h (by simp)
  rcases h2 : env.projectsResult with e | ps0 <;> simp only [h2] at h
  · exact absurd h (by simp)
  rcases h3 : env.selectProject ps0 with u | proj0 <;> simp only [h3] at h
  · exact absurd h (by simp)
  rcases h4 : env.activitiesResult proj0.id with e | acts0 <;> simp only [h4] at h
  · exact absurd h (by simp)
  rcases h5 : env.selectActivity acts0 with u | act0 <;> simp only [h5] at h
  · exact absurd h (by simp)
  rcases h6 : env.durationText with u | s0 <;> simp only [h6] at h
  · exact absurd h (by simp)
  rcases h7 : parse_duration s0 with od | _
  · rcases od with _ | d0
    · simp only [h7] at h
      exact absurd h (by simp)
    · simp only [h7] at h
      rcases h8 : env.dateInput with u | dt0 <;> simp only [h8] at h
      · exact absurd h (by simp)
      simp only [PResult.ok.injEq, Except.ok.injEq, Prod.mk.injEq] at h
      obtain ⟨hcfg, hproj, hact, hd, hdt, hdef⟩ := h
      subst hcfg
      subst hproj
      subst hact
      subst hd
      subst hdt
      exact ⟨ps0, acts0, s0, rfl, rfl, h3, h4, h5, rfl, h7, rfl, hdef.symm⟩
  · simp only [h7] at h
    exact absurd h (by simp)

theorem mainAssemble_ok_inv (env : Env) (form : TimesheetEditForm)
    (h : mainAssemble env = .ok (.ok form)) :
    ∃ cfg proj act d dt t descr ps acts s,
      env.configResult = .ok cfg ∧
      env.projectsResult = .ok ps ∧
      env.selectProject ps = .ok proj ∧
      env.activitiesResult proj.id = .ok acts ∧
      env.selectActivity acts = .ok act ∧
      env.durationText = .ok s ∧
      parse_duration s = .ok (some d) ∧
      env.dateInput = .ok dt ∧
      env.timeInput (defaultStartTime dt env.now d cfg) = .ok t ∧
      env.descriptionText = .ok descr ∧
      form = { begin := dt * 86400 + (t : ℤ), project := proj.id,
               activity := act.id, «end» := dt * 86400 + (t : ℤ) + (d : ℤ),
               description := some descr } := by
  rw [mainAssemble] at h
  rcases hmp : mainPrefix env with res | _
  · rcases res with e | tup
    · simp only [hmp] at h
      exact absurd h (by simp)
    · obtain ⟨cfg0, proj0, act0, d0, dt0, deft0⟩ := tup
      simp only [hmp] at h
      rcases h9 : env.timeInput deft0 with u | t0 <;> simp only [h9] at h
      · exact absurd h (by simp)
      rcases h10 : env.descriptionText with u | descr0 <;> simp only [h10] at h
      · exact absurd h (by simp)
      obtain ⟨ps0, acts0, s0, g1, g2, g3, g4, g5, g6, g7, g8, g9⟩ :=
        mainPrefix_ok_inv env cfg0 proj0 act0 d0 dt0 deft0 hmp
      simp only [PResult.ok.injEq, Except.ok.injEq] at h
      subst g9
      exact ⟨cfg0, proj0, act0, d0, dt0, t0, descr0, ps0, acts0, s0,
        g1, g2, g3, g4, g5, g6, g7, g8, h9, rfl, h.symm⟩
  · simp only [hmp] at h
    exact absurd h (by simp)

/-! ## The claims -/

/-- C1 (counterexample): the claim says the response body of a successful
`insert_timesheet_entry` call is discarded and the call succeeds on any
2xx exchange regardless of the body; in the code the body is read and fed
to `serde_json::from_str::<()>` (main.rs line 86), so a 2xx response with
body `"ok"` produces a decode error, not success. -/
theorem C1_counterexample :
    is2xx 200 = true ∧
      insert_timesheet_entry (.success 200 "ok") =
        .error (.decode "invalid type, expected unit") ∧
      insert_timesheet_entry (.success 200 "ok") ≠ .ok () :=
  ⟨by decide, by decide, by decide⟩

/-- C1 (amended): on a completed exchange returned as `Ok` the response
body is read and parsed as the JSON unit type rather than discarded: the
call succeeds exactly when the body is the literal `null` up to
surrounding whitespace, and fails with a decode error on every other
body, whatever the status. -/
theorem C1_amended (status : ℕ) (body : String) :
    (jsonStrip body.data = ['n', 'u', 'l', 'l'] →
      insert_timesheet_entry (.success status body) = .ok ()) ∧
    (jsonStrip body.data ≠ ['n', 'u', 'l', 'l'] →
      insert_timesheet_entry (.success status body) =
        .error (.decode "invalid type, expected unit")) := by
  constructor <;> intro h <;>
    simp [insert_timesheet_entry, api_request, serdeUnitFromStr, h]

theorem C1_witness :
    insert_timesheet_entry (.success 200 "null") = .ok () ∧
      insert_timesheet_entry (.success 200 "ok") =
        .error (.decode "invalid type, expected unit") :=
  ⟨(C1_amended 200 "null").1 (by decide), (C1_amended 200 "ok").2 (by decide)⟩

/-- C3 (counterexample): `"0.565"` matches the decimal grammar and its
decimal value times 3600 is exactly the integer 2034, but
`parse_duration` computes in `f64` — the nearest double to 0.565 lies
below it, the rounded product is 2033.9999999999998, and the truncated
result is 2033 seconds. -/
theorem C3_counterexample :
    parse_duration "0.565" = .ok (some 2033) ∧
      (decimalValueF ("0.565".data)).val * 3600 = 2034 ∧ (2033 : ℕ) ≠ 2034 := by
  refine ⟨by decide, ?_, by decide⟩
  have h : decimalValueF ("0.565".data) = ⟨565, 1000⟩ := by decide
  rw [h]
  show ((565 : ℕ) : ℚ) / ((1000 : ℕ) : ℚ) * 3600 = 2034
  norm_num

/-- C3 (amended): the decimal branch evaluates `(f64(s) * 3600.0) as i64`
in IEEE-754 double arithmetic.  This equals the exact decimal value times
3600 truncated toward zero on every whole-hours string within the chrono
Duration bound, and on the cited fractional examples, but it can fall one
second short of the exact truncation on fractional inputs (see the
counterexample), and very large values panic instead of returning. -/
theorem C3_amended :
    (∀ s : String, s.data ≠ [] → allDigits s.data = true →
      digitsVal s.data ≤ 2562047788015 →
      parse_duration s = .ok (some (3600 * digitsVal s.data))) ∧
    parse_duration "1.5" = .ok (some 5400) ∧
    parse_duration "0.0003" = .ok (some 1) ∧
    parse_duration "0.00001" = .ok (some 0) :=
  ⟨fun s h1 h2 h3 => parse_int_exact s h1 h2 h3, by decide, by decide, by decide⟩

theorem C3_witness :
    parse_duration "25" = .ok (some (3600 * digitsVal ("25".data))) ∧
      3600 * digitsVal ("25".data) = 90000 :=
  ⟨C3_amended.1 "25" (by decide) (by decide) (by decide), by decide⟩

/-- C4 (counterexample): `"9223372036854775808:0"` matches the clock
grammar with H = 2^63, but the `i64` parse of the hours group overflows
(main.rs line 120) and the `?` turns that into a parse failure, so the
function does not return H*3600 + M*60 seconds. -/
theorem C4_counterexample :
    parse_duration "9223372036854775808:0" = .ok none ∧
      (PResult.ok (some (9223372036854775808 * 3600 + 0 * 60)) :
        PResult (Option ℕ)) ≠ .ok none :=
  ⟨by decide, by decide⟩

/-- C4 (amended): for every clock-grammar string whose two digit groups
fit in `i64` and whose total seconds stay within the chrono Duration
bound, `parse_duration` returns H*3600 + M*60 seconds; a minutes group of
60 or more is neither rejected nor reinterpreted. -/
theorem C4_amended (s : String) (p r : List Char)
    (hcp : clockParts s.data = some (p, r))
    (hp : digitsVal p ≤ i64Max) (hr : digitsVal r ≤ i64Max)
    (htot : digitsVal p * 3600 + digitsVal r * 60 ≤ chronoSecMax) :
    parse_duration s = .ok (some (digitsVal p * 3600 + digitsVal r * 60)) :=
  parse_clock_eq s p r hcp hp hr htot

theorem C4_witness :
    parse_duration "1:90" =
      .ok (some (digitsVal ['1'] * 3600 + digitsVal ['9', '0'] * 60)) ∧
    parse_duration "2:30" =
      .ok (some (digitsVal ['2'] * 3600 + digitsVal ['3', '0'] * 60)) ∧
    digitsVal ['1'] * 3600 + digitsVal ['9', '0'] * 60 = 9000 ∧
    digitsVal ['2'] * 3600 + digitsVal ['3', '0'] * 60 = 9000 :=
  ⟨C4_amended "1:90" ['1'] ['9', '0'] (by decide) (by decide) (by decide)
      (by decide),
   C4_amended "2:30" ['2'] ['3', '0'] (by decide) (by decide) (by decide)
      (by decide),
   by decide, by decide⟩

/-- C5 (confirmed): a string matching neither anchored grammar — in
particular "abc", "1h30m", " 1 " (whitespace) and "" — yields a parse
failure, with no partial interpretation. -/
theorem C5_theorem :
    (∀ s : String, matchesDecimal s.data = false → clockParts s.data = none →
      parse_duration s = .ok none) ∧
    parse_duration "abc" = .ok none ∧
    parse_duration "1h30m" = .ok none ∧
    parse_duration " 1 " = .ok none ∧
    parse_duration "" = .ok none :=
  ⟨fun s h1 h2 => parse_none_of_no_match s h1 h2,
   by decide, by decide, by decide, by decide⟩

theorem C5_witness : parse_duration "2x" = .ok none :=
  C5_theorem.1 "2x" (by decide) (by decide)

/-- C7 (confirmed): a completed exchange carrying a non-2xx status is
reported as a server error holding both the numeric status code and the
raw response body text, and that error is a constructor distinct from the
decode-failure and transport-failure shapes. -/
theorem C7_theorem (α : Type) (dec : String → Except String α) (code : ℕ)
    (body : String) :
    api_request dec (.statusErr code body) = .error (.server code body) ∧
    (∀ msg, (ApiError.server code body) ≠ .decode msg) ∧
    (∀ msg, (ApiError.server code body) ≠ .transport msg) :=
  ⟨rfl, fun _ h => ApiError.noConfusion h, fun _ h => ApiError.noConfusion h⟩

theorem C7_witness :
    api_request serdeUnitFromStr (.statusErr 422 "validation failed") =
      .error (.server 422 "validation failed") :=
  (C7_theorem Unit serdeUnitFromStr 422 "validation failed").1

/-- C9 (counterexample): `parse_duration` is not panic-free:
`"9000000000000:0"` matches the clock grammar and both groups fit in
`i64`, but `Duration::hours(9000000000000)` exceeds the chrono bound of
`i64::MAX / 1000` seconds and panics. -/
theorem C9_counterexample : parse_duration "9000000000000:0" = .panic := by
  decide

/-- C9 (amended): `parse_duration` is a pure function that, except for
panics on values exceeding the chrono Duration bounds, always returns a
duration or a parse failure: bounded clock-grammar strings and decimal
strings of at most 2^30 hours return a value, and strings outside both
grammars return a parse failure, never a panic. -/
theorem C9_amended :
    (∀ s p r, clockParts s.data = some (p, r) →
      digitsVal p ≤ i64Max → digitsVal r ≤ i64Max →
      digitsVal p * 3600 + digitsVal r * 60 ≤ chronoSecMax →
      parse_duration s ≠ .panic) ∧
    (∀ s : String, matchesDecimal s.data = true →
      (decimalValueF s.data).num ≤ 2 ^ 30 * (decimalValueF s.data).den →
      parse_duration s ≠ .panic) ∧
    (∀ s : String, matchesDecimal s.data = false → clockParts s.data = none →
      parse_duration s ≠ .panic) := by
  refine ⟨?_, ?_, ?_⟩
  · intro s p r h1 h2 h3 h4
    rw [parse_clock_eq s p r h1 h2 h3 h4]
    simp
  · intro s h1 h2
    obtain ⟨d, hd⟩ := parse_decimal_no_panic s h1 h2
    rw [hd]
    simp
  · intro s h1 h2
    rw [parse_none_of_no_match s h1 h2]
    simp
theorem C9_witness :
    parse_duration "2:30" ≠ .panic ∧ parse_duration "1.5" ≠ .panic ∧
      parse_duration "abc" ≠ .panic :=
  ⟨C9_amended.1 "2:30" ['2'] ['3', '0'] (by decide) (by decide) (by decide)
      (by decide),
   C9_amended.2.1 "1.5" (by decide) (by decide),
   C9_amended.2.2 "abc" (by decide) (by decide)⟩

/-- C2 (counterexample): the duration string "0" parses successfully to a
duration of 0 seconds (which is ≥ 0), and the entry the workflow then
assembles has its end timestamp equal to its begin timestamp — not
strictly after it. -/
theorem C2_counterexample :
    parse_duration "0" = .ok (some 0) ∧
      mainAssemble (envWith "0") = .ok (.ok
        { begin := 1728040000, project := 1, activity := 10,
          «end» := 1728040000, description := some "" }) ∧
      ¬ ((1728040000 : ℤ) < 1728040000) :=
  ⟨by decide, by decide, by decide⟩

/-- C2 (amended): every successfully assembled entry satisfies
end = begin + duration, so end is at or after begin (durations are
nonnegative), and strictly after begin exactly when the parsed duration
is positive; a zero duration (e.g. input "0") gives end = begin. -/
theorem C2_amended (env : Env) (form : TimesheetEditForm) (s : String) (d : ℕ)
    (hs : env.durationText = .ok s) (hd : parse_duration s = .ok (some d))
    (hrun : mainAssemble env = .ok (.ok form)) :
    form.«end» = form.begin + (d : ℤ) ∧ form.begin ≤ form.«end» ∧
      (0 < d → form.begin < form.«end») := by
  obtain ⟨cfg, proj, act, d0, dt, t, descr, ps, acts, s0, g1, g2, g3, g4, g5,
    g6, g7, g8, g9, g10, hform⟩ := mainAssemble_ok_inv env form hrun
  subst hform
  have hss : s0 = s := by
    have h := g6.symm.trans hs
    simpa using h
  subst hss
  have hdd : d0 = d := by
    have h := g7.symm.trans hd
    simpa using h
  subst hdd
  refine ⟨rfl, ?_, ?_⟩
  · dsimp only
    omega
  · intro hdp
    dsimp only
    omega

theorem C2_witness :
    formW.«end» = formW.begin + ((5400 : ℕ) : ℤ) ∧
      formW.begin ≤ formW.«end» ∧
      (0 < 5400 → formW.begin < formW.«end») :=
  C2_amended (envWith "1.5") formW "1.5" 5400 (by decide) (by decide)
    (by decide)

/-- C6 (counterexample): with every earlier step succeeding and the
duration prompt answering "abc", the workflow panics through the
`unwrap()` on main.rs line 145 — unlike an API failure, which is
propagated as an error value through the `?` chain (second conjunct). -/
theorem C6_counterexample :
    mainAssemble (envWith "abc") = .panic ∧
      mainAssemble envProjErr =
        .ok (.error (.api (.transport "connection refused"))) :=
  ⟨by decide, by decide⟩

/-- C6 (amended): when the duration string fails to parse, the workflow
aborts with a non-zero exit status, but through an `unwrap` panic rather
than the error-propagation path every other failure kind uses, and the
message is the generic unwrap panic rather than a descriptive error;
other failures (e.g. a failed projects fetch) are propagated as error
values. -/
theorem C6_amended :
    (∀ env cfg ps proj acts act s, env.configResult = .ok cfg →
      env.projectsResult = .ok ps → env.selectProject ps = .ok proj →
      env.activitiesResult proj.id = .ok acts →
      env.selectActivity acts = .ok act → env.durationText = .ok s →
      parse_duration s = .ok none → mainAssemble env = .panic) ∧
    (∀ env e, env.projectsResult = .error e →
      (∃ cfg, env.configResult = .ok cfg) →
      mainAssemble env = .ok (.error (.api e))) := by
  constructor
  · intro env cfg ps proj acts act s h1 h2 h3 h4 h5 h6 h7
    rw [mainAssemble, mainPrefix]
    simp only [h1, h2, h3, h4, h5, h6, h7]
  · rintro env e h2 ⟨cfg, h1⟩
    rw [mainAssemble, mainPrefix]
    simp only [h1, h2]

theorem C6_witness :
    mainAssemble (envWith "1h30m") = .panic ∧
      mainAssemble envProjErr =
        .ok (.error (.api (.transport "connection refused"))) :=
  ⟨C6_amended.1 (envWith "1h30m") cfgA [projA] projA [actA] actA "1h30m"
      (by decide) (by decide) (by decide) (by decide) (by decide) (by decide)
      (by decide),
   C6_amended.2 envProjErr (.transport "connection refused") (by decide)
     ⟨cfgA, by decide⟩⟩

/-- C8 (confirmed): the default start time handed to the time prompt
equals "now minus the parsed duration" (wrapping time-of-day
subtraction) when the chosen date equals the current local date, and the
configured default start time otherwise. -/
theorem C8_theorem (env : Env) (cfg : Config) (proj : Project)
    (act : Activity) (d : ℕ) (dt : ℤ) (deft : ℕ)
    (h : mainPrefix env = .ok (.ok (cfg, proj, act, d, dt, deft))) :
    (dt = env.now.date → deft = timeSubWrap env.now.time d) ∧
    (dt ≠ env.now.date → deft = cfg.default_start_time) ∧
    (∃ s, env.durationText = .ok s ∧ parse_duration s = .ok (some d)) := by
  obtain ⟨ps, acts, s, g1, g2, g3, g4, g5, g6, g7, g8, g9⟩ :=
    mainPrefix_ok_inv env cfg proj act d dt deft h
  refine ⟨?_, ?_, s, g6, g7⟩
  · intro hdt
    rw [g9, defaultStartTime, if_pos hdt]
  · intro hdt
    rw [g9, defaultStartTime, if_neg hdt]

theorem C8_witness :
    ((20000 : ℤ) = (envWith "2:30").now.date →
      (31000 : ℕ) = timeSubWrap (envWith "2:30").now.time 9000) ∧
    ((20000 : ℤ) ≠ (envWith "2:30").now.date →
      (31000 : ℕ) = cfgA.default_start_time) ∧
    (∃ s, (envWith "2:30").durationText = .ok s ∧
      parse_duration s = .ok (some 9000)) :=
  C8_theorem (envWith "2:30") cfgA projA actA 9000 20000 31000 rfl

/-- C10 (confirmed): every form the workflow submits carries
`description = Some(text)` where text is exactly the description prompt
result (including the empty string), so the serialized payload always
contains the "description" key — even though the serializer omits that
key whenever the field is None. -/
theorem C10_theorem :
    (∀ env form, mainAssemble env = .ok (.ok form) →
      ∃ s, env.descriptionText = .ok s ∧ form.description = some s ∧
        "description" ∈ serializedKeys form) ∧
    (∀ f : TimesheetEditForm, f.description = none →
      "description" ∉ serializedKeys f) := by
  constructor
  · intro env form hrun
    obtain ⟨cfg, proj, act, d, dt, t, descr, ps, acts, s0, g1, g2, g3, g4, g5,
      g6, g7, g8, g9, g10, hform⟩ := mainAssemble_ok_inv env form hrun
    subst hform
    exact ⟨descr, g10, rfl, by simp [serializedKeys]⟩
  · intro f hnone
    simp [serializedKeys, hnone]

theorem C10_witness :
    (∃ s, (envWith "1").descriptionText = .ok s ∧
      formV.description = some s ∧ "description" ∈ serializedKeys formV) ∧
    "description" ∉ serializedKeys formN :=
  ⟨C10_theorem.1 (envWith "1") formV (by decide),
   C10_theorem.2 formN (by decide)⟩

end Kimai
